import Mathlib

/-!
Verification development for the gitoxide pattern-matching sample.

The repository sample contains the test-suite of the `git-glob` pattern engine
(`src/git-glob/tests/matching/mod.rs`), the tag parser of `git-object`
(`src/git-object/src/parsed/tag.rs`), and supporting files.  The pattern
compiler and matcher themselves are not part of the sample, so they are
modelled from the specification (sections 4.1-4.3); the test-harness
`Baseline` iterator and the tag parser are embedded directly from the
Rust source.  Bytes are modelled as `Nat` (values below 256), byte strings
as `List Nat`.
-/

namespace GitGlob

/-- ASCII bytes of a Lean string (all inputs in this development are ASCII). -/
def bytes (s : String) : List Nat :=
  s.data.map Char.toNat

/-- Case sensitivity mode of the matcher (`pattern::Case`). -/
inductive Case where
  | sensitive
  | fold
deriving DecidableEq, Repr

/-- Lower-case an ASCII byte, other bytes unchanged. -/
def toLowerB (b : Nat) : Nat :=
  if 65 ≤ b ∧ b ≤ 90 then b + 32 else b

/-- Comparison normalisation: in `fold` mode every literal or class
comparison point sees lower-cased bytes, in `sensitive` mode raw bytes. -/
def fb : Case → Nat → Nat
  | Case.sensitive, b => b
  | Case.fold, b => toLowerB b

/-- The flag set of a compiled pattern (`pattern::Mode`). -/
structure Mode where
  mustBeDir : Bool
  noSubDir : Bool
  absolute : Bool
  negative : Bool
deriving DecidableEq, Repr

/-- A compiled ignore-file pattern: normalised text plus mode flags. -/
structure Pattern where
  text : List Nat
  mode : Mode
deriving DecidableEq, Repr

/-- The single compile-time error: the pattern text is empty after the
negation / anchor / trailing-slash markers are stripped. -/
inductive ParseError where
  | emptyPattern
deriving DecidableEq, Repr

/-- Modelled from the spec: scan bytes for an unescaped `/` (a backslash
escapes the byte after it). -/
def hasUnescapedSlash : List Nat → Bool
  | [] => false
  | 92 :: _ :: rest => hasUnescapedSlash rest
  | [92] => false
  | b :: rest => if b = 47 then true else hasUnescapedSlash rest

/-- Modelled from the spec: does the byte list end in an unescaped `/`
(the slash is unescaped when it is preceded by an even number of
backslashes)? -/
def unescapedTrailingSlash (l : List Nat) : Bool :=
  match l.reverse with
  | 47 :: rest => decide ((rest.takeWhile fun b => b == 92).length % 2 = 0)
  | _ => false

/-- Modelled from the spec: trim trailing unescaped spaces (an escaped
space, backslash-space, survives).  Operates on the reversed byte list. -/
def dropSpacesRev : List Nat → List Nat
  | 32 :: rest =>
    if (rest.takeWhile fun b => b == 92).length % 2 = 0 then dropSpacesRev rest
    else 32 :: rest
  | l => l

/-- Modelled from the spec: trailing unescaped whitespace of a pattern
line is trimmed during compilation. -/
def trimTrailingSpaces (l : List Nat) : List Nat :=
  (dropSpacesRev l.reverse).reverse

/-- Modelled from the spec: the pattern compiler
(`Pattern::from_bytes` / `compile`), which is absent from the sampled
sources (only its tests are present).  Steps, following section 4.1:
strip one leading `!` (`NEGATIVE`), strip one leading `/` (`ABSOLUTE`),
strip one trailing unescaped `/` (`MUST_BE_DIR`); if nothing remains the
line is rejected; otherwise trailing unescaped whitespace is trimmed and
`NO_SUB_DIR` records that the remaining text has no unescaped `/`. -/
def stripNegation (raw : List Nat) : Bool × List Nat :=
  match raw with
  | 33 :: rest => (true, rest)
  | _ => (false, raw)

def stripAnchor (l : List Nat) : Bool × List Nat :=
  match l with
  | 47 :: rest => (true, rest)
  | _ => (false, l)

def stripDirSlash (l : List Nat) : Bool × List Nat :=
  if unescapedTrailingSlash l then (true, l.dropLast) else (false, l)

/-- The pattern line after the negation marker, the anchor slash and the
trailing directory slash are stripped, in that order. -/
def strippedLine (raw : List Nat) : List Nat :=
  (stripDirSlash (stripAnchor (stripNegation raw).2).2).2

def compile (raw : List Nat) : Except ParseError Pattern :=
  let n := stripNegation raw
  let a := stripAnchor n.2
  let d := stripDirSlash a.2
  if d.2 = [] then Except.error ParseError.emptyPattern
  else
    let text := trimTrailingSpaces d.2
    Except.ok
      { text := text
        mode :=
          { mustBeDir := d.1
            noSubDir := !hasUnescapedSlash text
            absolute := a.1
            negative := n.1 } }

/-- One entry of a bracket character class: a single byte or a range. -/
inductive ClassItem where
  | single (b : Nat)
  | range (lo hi : Nat)
deriving DecidableEq, Repr

/-- Modelled from the spec: length of a class body, scanning from just
after the optional negation marker to the closing `]`.  The second
argument is true while no byte has been consumed yet, so that a leading
`]` is literal; a backslash escapes the next byte.  `none` means the
class is unterminated. -/
def classEndIdx : List Nat → Bool → Option Nat
  | [], _ => none
  | b :: rest, first =>
    if b = 93 ∧ first = false then some 0
    else if b = 92 then
      match rest with
      | [] => none
      | _ :: rest2 => (classEndIdx rest2 false).map (· + 2)
    else (classEndIdx rest false).map (· + 1)

/-- The escape-resolved units of a class body: `(true, x)` is a byte that
was escaped by a backslash, `(false, b)` a plain byte.  A dangling final
backslash is a plain backslash. -/
def units : List Nat → List (Bool × Nat)
  | [] => []
  | b :: rest =>
    if b = 92 then
      match rest with
      | [] => [(false, 92)]
      | x :: rest2 => (true, x) :: units rest2
    else (false, b) :: units rest

/-- Group class-body units into items: a unit followed by an unescaped `-`
and another unit forms a range, any other unit is a single byte (so a `-`
at the start or end of the body, or an escaped `-`, is a literal dash). -/
def itemsOfUnits : List (Bool × Nat) → List ClassItem
  | [] => []
  | u :: (false, 45) :: u2 :: rest => ClassItem.range u.2 u2.2 :: itemsOfUnits rest
  | u :: us => ClassItem.single u.2 :: itemsOfUnits us

/-- Modelled from the spec: the items of a complete class body (the bytes
between the optional negation marker and the closing `]`). -/
def bodyItems (body : List Nat) : List ClassItem :=
  itemsOfUnits (units body)

/-- Modelled from the spec: analyse a class at the start of `ps` (the
bytes just after `[`).  Returns the negation flag, the parsed items and
the number of bytes consumed including the closing `]`, or `none` when
the class is unterminated. -/
def classAt (ps : List Nat) : Option (Bool × List ClassItem × Nat) :=
  if ps.head? = some 33 ∨ ps.head? = some 94 then
    (classEndIdx ps.tail true).map fun n => (true, bodyItems (ps.tail.take n), n + 2)
  else
    (classEndIdx ps true).map fun n => (false, bodyItems (ps.take n), n + 1)

/-- Does byte `y` match one of the class items, under case mode `c`? -/
def itemsMatch (c : Case) (items : List ClassItem) (y : Nat) : Bool :=
  items.any fun it =>
    match it with
    | ClassItem.single x => fb c x == fb c y
    | ClassItem.range lo hi => decide (fb c lo ≤ fb c y ∧ fb c y ≤ fb c hi)

/-- The negation flag of the class at the start of `ps` (false when the
class is unterminated). -/
def classNegOf (ps : List Nat) : Bool :=
  ((classAt ps).map fun t => t.1).getD false

/-- The items of the class at the start of `ps` (empty when the class is
unterminated). -/
def classItemsOf (ps : List Nat) : List ClassItem :=
  ((classAt ps).map fun t => t.2.1).getD []

/-- The number of bytes consumed by the class at the start of `ps`
(zero when the class is unterminated). -/
def classSkip (ps : List Nat) : Nat :=
  ((classAt ps).map fun t => t.2.2).getD 0

/-- Modelled from the spec, section 4.2: the `wildmatch` glob matcher.
`?` matches one non-slash byte; a single `*` matches any run of
non-slash bytes; a run of two or more `*` matches any bytes including
`/`, a following `/` being absorbable; `[...]` matches one non-slash
byte against a character class; a backslash escapes the next byte (a
dangling final backslash is a literal backslash); anything else is a
literal comparison through `fb`.  Matching is anchored at both ends:
an exhausted pattern only matches an exhausted candidate. -/
def gmatchF : Nat → Case → List Nat → List Nat → Bool
  | 0, _, _, _ => false
  | fuel + 1, cse, p, c =>
    match p with
    | [] => c.isEmpty
    | b :: ps =>
      if b = 63 then
        match c with
        | y :: cs => decide (y ≠ 47) && gmatchF fuel cse ps cs
        | [] => false
      else if b = 42 then
        if ps.head? = some 42 then
          gmatchF fuel cse (ps.dropWhile fun a => a == 42) c
            || (if (ps.dropWhile fun a => a == 42).head? = some 47 then
                  gmatchF fuel cse (ps.dropWhile fun a => a == 42).tail c
                else false)
            || (match c with
                | _ :: cs => gmatchF fuel cse (b :: ps) cs
                | [] => false)
        else
          gmatchF fuel cse ps c
            || (match c with
                | y :: cs => decide (y ≠ 47) && gmatchF fuel cse (b :: ps) cs
                | [] => false)
      else if b = 91 then
        match c with
        | y :: cs =>
          (classAt ps).isSome && decide (y ≠ 47) &&
            (itemsMatch cse (classItemsOf ps) y != classNegOf ps) &&
            gmatchF fuel cse (ps.drop (classSkip ps)) cs
        | [] => false
      else if b = 92 then
        match ps with
        | x :: ps2 =>
          match c with
          | y :: cs => (fb cse x == fb cse y) && gmatchF fuel cse ps2 cs
          | [] => false
        | [] =>
          match c with
          | y :: cs => (y == 92) && cs.isEmpty
          | [] => false
      else
        match c with
        | y :: cs => (fb cse b == fb cse y) && gmatchF fuel cse ps cs
        | [] => false

/-- Every recursive step of the matcher shrinks `p.length + c.length`,
so this fuel always suffices (`gmatchF_eq` below). -/
def gmatch (cse : Case) (p c : List Nat) : Bool :=
  gmatchF (p.length + c.length + 1) cse p c

theorem gmatchF_irrel :
    ∀ (f1 f2 : Nat) (cse : Case) (p c : List Nat),
      p.length + c.length < f1 → p.length + c.length < f2 →
      gmatchF f1 cse p c = gmatchF f2 cse p c := by
  intro f1
  induction f1 with
  | zero => intro f2 cse p c h1 h2; omega
  | succ a ih =>
    intro f2 cse p c h1 h2
    obtain ⟨b, rfl⟩ : ∃ b, f2 = b + 1 := ⟨f2 - 1, by omega⟩
    cases p with
    | nil => rfl
    | cons bb ps =>
      simp only [gmatchF]
      simp only [List.length_cons] at h1 h2
      by_cases h63 : bb = 63
      · rw [if_pos h63, if_pos h63]
        cases c with
        | nil => rfl
        | cons y cs =>
          simp only [List.length_cons] at h1 h2
          try dsimp only
          rw [ih b cse ps cs (by omega) (by omega)]
      · rw [if_neg h63, if_neg h63]
        by_cases h42 : bb = 42
        · rw [if_pos h42, if_pos h42]
          have hdw := (List.dropWhile_sublist (l := ps) (p := fun x => x == 42)).length_le
          have htl := List.length_tail (List.dropWhile (fun x => x == 42) ps)
          by_cases hrun : ps.head? = some 42
          · rw [if_pos hrun, if_pos hrun]
            try dsimp only
            rw [ih b cse (ps.dropWhile fun x => x == 42) c (by omega) (by omega)]
            by_cases habs : (ps.dropWhile fun x => x == 42).head? = some 47
            · rw [if_pos habs, if_pos habs]
              try dsimp only
              rw [ih b cse (ps.dropWhile fun x => x == 42).tail c (by omega) (by omega)]
              cases c with
              | nil => rfl
              | cons y cs =>
                simp only [List.length_cons] at h1 h2
                try dsimp only
                rw [ih b cse (bb :: ps) cs
                  (by simp only [List.length_cons]; omega)
                  (by simp only [List.length_cons]; omega)]
            · rw [if_neg habs, if_neg habs]
              cases c with
              | nil => rfl
              | cons y cs =>
                simp only [List.length_cons] at h1 h2
                try dsimp only
                rw [ih b cse (bb :: ps) cs
                  (by simp only [List.length_cons]; omega)
                  (by simp only [List.length_cons]; omega)]
          · rw [if_neg hrun, if_neg hrun]
            try dsimp only
            rw [ih b cse ps c (by omega) (by omega)]
            cases c with
            | nil => rfl
            | cons y cs =>
              simp only [List.length_cons] at h1 h2
              try dsimp only
              rw [ih b cse (bb :: ps) cs
                (by simp only [List.length_cons]; omega)
                (by simp only [List.length_cons]; omega)]
        · rw [if_neg h42, if_neg h42]
          by_cases h91 : bb = 91
          · rw [if_pos h91, if_pos h91]
            cases c with
            | nil => rfl
            | cons y cs =>
              simp only [List.length_cons] at h1 h2
              have hdr := List.length_drop (classSkip ps) ps
              try dsimp only
              rw [ih b cse (ps.drop (classSkip ps)) cs (by omega) (by omega)]
          · rw [if_neg h91, if_neg h91]
            by_cases h92 : bb = 92
            · rw [if_pos h92, if_pos h92]
              cases ps with
              | nil => rfl
              | cons x ps2 =>
                cases c with
                | nil => rfl
                | cons y cs =>
                  simp only [List.length_cons] at h1 h2
                  try dsimp only
                  rw [ih b cse ps2 cs (by omega) (by omega)]
            · rw [if_neg h92, if_neg h92]
              cases c with
              | nil => rfl
              | cons y cs =>
                simp only [List.length_cons] at h1 h2
                try dsimp only
                rw [ih b cse ps cs (by omega) (by omega)]

theorem gmatchF_eq {f : Nat} {cse : Case} {p c : List Nat}
    (h : p.length + c.length < f) : gmatchF f cse p c = gmatch cse p c :=
  gmatchF_irrel f (p.length + c.length + 1) cse p c h (by omega)

theorem gmatchF_cons (B : Nat) (cse : Case) (b : Nat) (ps c : List Nat) :
    gmatchF (B + 1) cse (b :: ps) c =
      (if b = 63 then
        match c with
        | y :: cs => decide (y ≠ 47) && gmatchF B cse ps cs
        | [] => false
      else if b = 42 then
        if ps.head? = some 42 then
          gmatchF B cse (ps.dropWhile fun a => a == 42) c
            || (if (ps.dropWhile fun a => a == 42).head? = some 47 then
                  gmatchF B cse (ps.dropWhile fun a => a == 42).tail c
                else false)
            || (match c with
                | _ :: cs => gmatchF B cse (b :: ps) cs
                | [] => false)
        else
          gmatchF B cse ps c
            || (match c with
                | y :: cs => decide (y ≠ 47) && gmatchF B cse (b :: ps) cs
                | [] => false)
      else if b = 91 then
        match c with
        | y :: cs =>
          (classAt ps).isSome && decide (y ≠ 47) &&
            (itemsMatch cse (classItemsOf ps) y != classNegOf ps) &&
            gmatchF B cse (ps.drop (classSkip ps)) cs
        | [] => false
      else if b = 92 then
        match ps with
        | x :: ps2 =>
          match c with
          | y :: cs => (fb cse x == fb cse y) && gmatchF B cse ps2 cs
          | [] => false
        | [] =>
          match c with
          | y :: cs => (y == 92) && cs.isEmpty
          | [] => false
      else
        match c with
        | y :: cs => (fb cse b == fb cse y) && gmatchF B cse ps cs
        | [] => false) := rfl

theorem gmatch_cons (cse : Case) (b : Nat) (ps c : List Nat) :
    gmatch cse (b :: ps) c =
      (if b = 63 then
        match c with
        | y :: cs => decide (y ≠ 47) && gmatchF ((b :: ps).length + c.length) cse ps cs
        | [] => false
      else if b = 42 then
        if ps.head? = some 42 then
          gmatchF ((b :: ps).length + c.length) cse (ps.dropWhile fun a => a == 42) c
            || (if (ps.dropWhile fun a => a == 42).head? = some 47 then
                  gmatchF ((b :: ps).length + c.length) cse (ps.dropWhile fun a => a == 42).tail c
                else false)
            || (match c with
                | _ :: cs => gmatchF ((b :: ps).length + c.length) cse (b :: ps) cs
                | [] => false)
        else
          gmatchF ((b :: ps).length + c.length) cse ps c
            || (match c with
                | y :: cs => decide (y ≠ 47) && gmatchF ((b :: ps).length + c.length) cse (b :: ps) cs
                | [] => false)
      else if b = 91 then
        match c with
        | y :: cs =>
          (classAt ps).isSome && decide (y ≠ 47) &&
            (itemsMatch cse (classItemsOf ps) y != classNegOf ps) &&
            gmatchF ((b :: ps).length + c.length) cse (ps.drop (classSkip ps)) cs
        | [] => false
      else if b = 92 then
        match ps with
        | x :: ps2 =>
          match c with
          | y :: cs => (fb cse x == fb cse y) && gmatchF ((b :: ps).length + c.length) cse ps2 cs
          | [] => false
        | [] =>
          match c with
          | y :: cs => (y == 92) && cs.isEmpty
          | [] => false
      else
        match c with
        | y :: cs => (fb cse b == fb cse y) && gmatchF ((b :: ps).length + c.length) cse ps cs
        | [] => false) :=
  gmatchF_cons ((b :: ps).length + c.length) cse b ps c

theorem gmatch_nil (cse : Case) (c : List Nat) : gmatch cse [] c = c.isEmpty := rfl

theorem gmatch_qm_cons (cse : Case) (ps : List Nat) (y : Nat) (cs : List Nat) :
    gmatch cse (63 :: ps) (y :: cs) = (decide (y ≠ 47) && gmatch cse ps cs) := by
  show (decide (y ≠ 47) && gmatchF ((63 :: ps).length + (y :: cs).length) cse ps cs) = _
  rw [gmatchF_eq (by simp only [List.length_cons]; omega)]

theorem gmatch_qm_nil (cse : Case) (ps : List Nat) : gmatch cse (63 :: ps) [] = false := rfl

theorem gmatch_esc_cons (cse : Case) (x : Nat) (ps2 : List Nat) (y : Nat) (cs : List Nat) :
    gmatch cse (92 :: x :: ps2) (y :: cs) = ((fb cse x == fb cse y) && gmatch cse ps2 cs) := by
  show ((fb cse x == fb cse y) && gmatchF ((92 :: x :: ps2).length + (y :: cs).length) cse ps2 cs) = _
  rw [gmatchF_eq (by simp only [List.length_cons]; omega)]

theorem gmatch_esc_nil (cse : Case) (x : Nat) (ps2 : List Nat) :
    gmatch cse (92 :: x :: ps2) [] = false := rfl

theorem gmatch_dangling_cons (cse : Case) (y : Nat) (cs : List Nat) :
    gmatch cse [92] (y :: cs) = ((y == 92) && cs.isEmpty) := rfl

theorem gmatch_dangling_nil (cse : Case) : gmatch cse [92] [] = false := rfl

theorem gmatch_class_cons (cse : Case) (ps : List Nat) (y : Nat) (cs : List Nat) :
    gmatch cse (91 :: ps) (y :: cs) =
      ((classAt ps).isSome && decide (y ≠ 47) &&
        (itemsMatch cse (classItemsOf ps) y != classNegOf ps) &&
        gmatch cse (ps.drop (classSkip ps)) cs) := by
  show ((classAt ps).isSome && decide (y ≠ 47) &&
      (itemsMatch cse (classItemsOf ps) y != classNegOf ps) &&
      gmatchF ((91 :: ps).length + (y :: cs).length) cse (ps.drop (classSkip ps)) cs) = _
  rw [gmatchF_eq (by
    have hd := List.length_drop (classSkip ps) ps
    simp only [List.length_cons]
    omega)]

theorem gmatch_class_nil (cse : Case) (ps : List Nat) : gmatch cse (91 :: ps) [] = false := rfl

theorem gmatch_lit_cons {b : Nat} (cse : Case) (ps : List Nat) (y : Nat) (cs : List Nat)
    (h63 : b ≠ 63) (h42 : b ≠ 42) (h91 : b ≠ 91) (h92 : b ≠ 92) :
    gmatch cse (b :: ps) (y :: cs) = ((fb cse b == fb cse y) && gmatch cse ps cs) := by
  rw [gmatch_cons, if_neg h63, if_neg h42, if_neg h91, if_neg h92]
  show ((fb cse b == fb cse y) && gmatchF ((b :: ps).length + (y :: cs).length) cse ps cs) = _
  rw [gmatchF_eq (by simp only [List.length_cons]; omega)]

theorem gmatch_lit_nil {b : Nat} (cse : Case) (ps : List Nat)
    (h63 : b ≠ 63) (h42 : b ≠ 42) (h91 : b ≠ 91) (h92 : b ≠ 92) :
    gmatch cse (b :: ps) [] = false := by
  rw [gmatch_cons, if_neg h63, if_neg h42, if_neg h91, if_neg h92]

theorem gmatch_run_cons (cse : Case) {ps : List Nat} (y : Nat) (cs : List Nat)
    (hrun : ps.head? = some 42) :
    gmatch cse (42 :: ps) (y :: cs) =
      ((gmatch cse (ps.dropWhile fun a => a == 42) (y :: cs)
          || (if (ps.dropWhile fun a => a == 42).head? = some 47 then
                gmatch cse (ps.dropWhile fun a => a == 42).tail (y :: cs)
              else false))
        || gmatch cse (42 :: ps) cs) := by
  have hdw := (List.dropWhile_sublist (l := ps) (p := fun a => a == 42)).length_le
  have htl := List.length_tail (List.dropWhile (fun a => a == 42) ps)
  rw [gmatch_cons, if_neg (by decide : ¬(42 : Nat) = 63),
    if_pos (rfl : (42 : Nat) = 42), if_pos hrun]
  rw [gmatchF_eq (p := ps.dropWhile fun a => a == 42) (c := y :: cs)
    (by simp only [List.length_cons]; omega)]
  rw [gmatchF_eq (p := (ps.dropWhile fun a => a == 42).tail) (c := y :: cs)
    (by simp only [List.length_cons]; omega)]
  dsimp only
  rw [gmatchF_eq (p := 42 :: ps) (c := cs)
    (by simp only [List.length_cons]; omega)]

theorem gmatch_run_nil (cse : Case) {ps : List Nat} (hrun : ps.head? = some 42) :
    gmatch cse (42 :: ps) [] =
      (gmatch cse (ps.dropWhile fun a => a == 42) []
        || (if (ps.dropWhile fun a => a == 42).head? = some 47 then
              gmatch cse (ps.dropWhile fun a => a == 42).tail []
            else false)) := by
  have hdw := (List.dropWhile_sublist (l := ps) (p := fun a => a == 42)).length_le
  have htl := List.length_tail (List.dropWhile (fun a => a == 42) ps)
  rw [gmatch_cons, if_neg (by decide : ¬(42 : Nat) = 63),
    if_pos (rfl : (42 : Nat) = 42), if_pos hrun]
  rw [gmatchF_eq (p := ps.dropWhile fun a => a == 42) (c := ([] : List Nat))
    (by simp only [List.length_cons]; omega)]
  rw [gmatchF_eq (p := (ps.dropWhile fun a => a == 42).tail) (c := ([] : List Nat))
    (by simp only [List.length_cons]; omega)]
  show (_ || _ || false) = _
  rw [Bool.or_false]

theorem gmatch_star_cons (cse : Case) {ps : List Nat} (y : Nat) (cs : List Nat)
    (hsingle : ¬ps.head? = some 42) :
    gmatch cse (42 :: ps) (y :: cs) =
      (gmatch cse ps (y :: cs) || (decide (y ≠ 47) && gmatch cse (42 :: ps) cs)) := by
  rw [gmatch_cons, if_neg (by decide : ¬(42 : Nat) = 63),
    if_pos (rfl : (42 : Nat) = 42), if_neg hsingle]
  rw [gmatchF_eq (p := ps) (c := y :: cs) (by simp only [List.length_cons]; omega)]
  dsimp only
  rw [gmatchF_eq (p := 42 :: ps) (c := cs) (by simp only [List.length_cons]; omega)]

theorem gmatch_star_nil (cse : Case) {ps : List Nat} (hsingle : ¬ps.head? = some 42) :
    gmatch cse (42 :: ps) [] = gmatch cse ps [] := by
  rw [gmatch_cons, if_neg (by decide : ¬(42 : Nat) = 63),
    if_pos (rfl : (42 : Nat) = 42), if_neg hsingle]
  rw [gmatchF_eq (p := ps) (c := ([] : List Nat)) (by simp only [List.length_cons]; omega)]
  show (_ || false) = _
  rw [Bool.or_false]

/-- Modelled from the spec, section 4.3 step 2: the matching target is
the basename slice `path[basename_start..]` when a basename offset is
given, else the whole path. -/
def targetOf (path : List Nat) (basenameStart : Option Nat) : List Nat :=
  match basenameStart with
  | some i => path.drop i
  | none => path

/-- Modelled from the spec, section 4.3: `Pattern::matches_path`, absent
from the sampled sources.  A `MUST_BE_DIR` pattern rejects non-directories
before any glob comparison; a `NO_SUB_DIR` pattern that is not `ABSOLUTE`
is evaluated once against the basename; every other pattern is evaluated
against the entire path from its first byte. -/
def matchesPath (p : Pattern) (path : List Nat) (basenameStart : Option Nat)
    (isDir : Bool) (case : Case) : Bool :=
  if p.mode.mustBeDir && !isDir then false
  else if p.mode.noSubDir && !p.mode.absolute then
    gmatch case p.text (targetOf path basenameStart)
  else
    gmatch case p.text path

/-- Index one past the last `/` of a byte string, if any
(`basename_start_pos` of the test harness). -/
def basenameStartPos (value : List Nat) : Option Nat :=
  (value.reverse.findIdx? fun a => a == 47).map fun j => value.length - 1 - j + 1

/-- The test harness `match_path` helper: compile the pattern and match
the path with its precomputed basename offset; `none` when the pattern
does not compile. -/
def matchPathM (pattern path : String) (isDir : Bool) (case : Case) : Option Bool :=
  match compile (bytes pattern) with
  | Except.ok p =>
    some (matchesPath p (bytes path) (basenameStartPos (bytes path)) isDir case)
  | Except.error _ => none

/-- The test harness `match_file` helper: `match_path` with `is_dir = false`. -/
def matchFileM (pattern path : String) (case : Case) : Option Bool :=
  matchPathM pattern path false case

/-- A pattern text with no wildcard, class or escape byte. -/
def literalPattern (p : List Nat) : Bool :=
  p.all fun b => !(b == 63 || b == 42 || b == 91 || b == 92)

/-- Length-equal pointwise comparison of two byte lists through `fb`:
the whole pattern against the whole candidate, nothing less. -/
def caseEqList (cse : Case) : List Nat → List Nat → Bool
  | [], [] => true
  | x :: xs, y :: ys => (fb cse x == fb cse y) && caseEqList cse xs ys
  | _, _ => false

theorem caseEqList_length (cse : Case) :
    ∀ p c, caseEqList cse p c = true → p.length = c.length := by
  intro p
  induction p with
  | nil => intro c h; cases c with
    | nil => rfl
    | cons y cs => exact absurd h (by simp [caseEqList])
  | cons x xs ih =>
    intro c h
    cases c with
    | nil => exact absurd h (by simp [caseEqList])
    | cons y cs =>
      simp only [caseEqList, Bool.and_eq_true] at h
      simp only [List.length_cons, ih cs h.2]

theorem gmatch_literal (cse : Case) :
    ∀ p c, literalPattern p = true → gmatch cse p c = caseEqList cse p c := by
  intro p
  induction p with
  | nil =>
    intro c _
    cases c with
    | nil => rfl
    | cons y cs => rfl
  | cons b ps ih =>
    intro c hlit
    simp only [literalPattern, List.all_cons, Bool.and_eq_true, Bool.not_eq_true',
      Bool.or_eq_false_iff, beq_eq_false_iff_ne] at hlit
    obtain ⟨⟨⟨⟨h63, h42⟩, h91⟩, h92⟩, hps⟩ := hlit
    cases c with
    | nil =>
      rw [gmatch_lit_nil cse ps h63 h42 h91 h92]
      rfl
    | cons y cs =>
      rw [gmatch_lit_cons cse ps y cs h63 h42 h91 h92,
        ih cs (by simpa [literalPattern] using hps)]
      rfl

theorem caseEqList_sensitive :
    ∀ p c, caseEqList Case.sensitive p c = true ↔ p = c := by
  intro p
  induction p with
  | nil =>
    intro c
    cases c with
    | nil => simp [caseEqList]
    | cons y cs => simp [caseEqList]
  | cons x xs ih =>
    intro c
    cases c with
    | nil => simp [caseEqList]
    | cons y cs =>
      simp only [caseEqList, Bool.and_eq_true, beq_iff_eq, fb, List.cons.injEq]
      exact and_congr Iff.rfl (ih cs)

/-- Lower-case every byte of a class item. -/
def lowerItem : ClassItem → ClassItem
  | ClassItem.single b => ClassItem.single (toLowerB b)
  | ClassItem.range lo hi => ClassItem.range (toLowerB lo) (toLowerB hi)

/-- Lower-case the byte of a class-body unit. -/
def lowerU (u : Bool × Nat) : Bool × Nat :=
  (u.1, toLowerB u.2)

theorem toLowerB_eq_special {b k : Nat} (hk : k < 97) (hk2 : k < 65 ∨ 90 < k) :
    toLowerB b = k ↔ b = k := by
  unfold toLowerB
  split <;> (constructor <;> intro h1 <;> omega)

theorem toLowerB_idem (b : Nat) : toLowerB (toLowerB b) = toLowerB b := by
  by_cases h : 65 ≤ b ∧ b ≤ 90
  · simp only [toLowerB, if_pos h]
    rw [if_neg (by omega)]
  · simp only [toLowerB, if_neg h]

theorem beq_toLowerB_special {k : Nat} (hk : k < 97) (hk2 : k < 65 ∨ 90 < k)
    (b : Nat) : (toLowerB b == k) = (b == k) := by
  by_cases h : b = k
  · subst h
    have : toLowerB b = b := (toLowerB_eq_special hk hk2).mpr rfl
    simp [this]
  · have : toLowerB b ≠ k := fun hh => h ((toLowerB_eq_special hk hk2).mp hh)
    simp [h, this]

theorem head?_map_special {k : Nat} (hk : k < 97) (hk2 : k < 65 ∨ 90 < k)
    (l : List Nat) : ((l.map toLowerB).head? = some k) ↔ (l.head? = some k) := by
  cases l with
  | nil => simp
  | cons a t => simp [toLowerB_eq_special hk hk2]

theorem dropWhile42_map (l : List Nat) :
    List.dropWhile (fun a => a == 42) (l.map toLowerB) =
      (List.dropWhile (fun a => a == 42) l).map toLowerB := by
  have hp : ((fun a => a == 42) ∘ toLowerB) = (fun a : Nat => a == 42) := by
    funext a
    exact beq_toLowerB_special (by omega) (by omega) a
  rw [List.dropWhile_map, hp]

theorem units_cons_ne {b : Nat} (hb : ¬b = 92) (rest : List Nat) :
    units (b :: rest) = (false, b) :: units rest := by
  rw [units.eq_def]
  simp [hb]

theorem units_map (body : List Nat) :
    units (body.map toLowerB) = (units body).map lowerU := by
  induction body using units.induct with
  | case1 => rfl
  | case2 => rfl
  | case3 x rest2 ih =>
    show units (92 :: toLowerB x :: rest2.map toLowerB) = _
    rw [show units (92 :: toLowerB x :: rest2.map toLowerB) =
        (true, toLowerB x) :: units (rest2.map toLowerB) from rfl,
      show units (92 :: x :: rest2) = (true, x) :: units rest2 from rfl,
      ih]
    rfl
  | case4 x rest2 hne ih =>
    have hnel : toLowerB x ≠ 92 :=
      fun hh => hne ((toLowerB_eq_special (by omega) (by omega)).mp hh)
    show units (toLowerB x :: rest2.map toLowerB) = _
    rw [units_cons_ne hnel, units_cons_ne hne, ih]
    rfl

theorem itemsOfUnits_map (us : List (Bool × Nat)) :
    itemsOfUnits (us.map lowerU) = (itemsOfUnits us).map lowerItem := by
  induction us using itemsOfUnits.induct with
  | case1 => rfl
  | case2 u u2 rest ih =>
    have h45 : lowerU (false, 45) = (false, 45) := rfl
    rw [List.map_cons, List.map_cons, List.map_cons, h45,
      itemsOfUnits.eq_2, itemsOfUnits.eq_2, ih]
    rfl
  | case3 u us hne ih =>
    have hne' : ∀ (u2 : Bool × Nat) (rest : List (Bool × Nat)),
        us.map lowerU = (false, 45) :: u2 :: rest → False := by
      intro u2 rest h
      cases us with
      | nil => exact absurd h (by simp)
      | cons v us2 =>
        simp only [List.map_cons, List.cons.injEq] at h
        obtain ⟨hv, hrest⟩ := h
        obtain ⟨vb, vn⟩ := v
        simp only [lowerU, Prod.mk.injEq] at hv
        obtain ⟨hb, hn⟩ := hv
        have hn' : vn = 45 := (toLowerB_eq_special (by omega) (by omega)).mp hn
        cases us2 with
        | nil => exact absurd hrest (by simp)
        | cons w us3 => exact hne w us3 (by rw [hb, hn'])
    rw [List.map_cons, itemsOfUnits.eq_3 _ _ hne', itemsOfUnits.eq_3 _ _ hne, ih]
    rfl

theorem classEndIdx_map (l : List Nat) (first : Bool) :
    classEndIdx (l.map toLowerB) first = classEndIdx l first := by
  induction l, first using classEndIdx.induct with
  | case1 first => rfl
  | case2 b rest first h =>
    obtain ⟨hb, hf⟩ := h
    subst hb
    subst hf
    rw [List.map_cons, show toLowerB 93 = 93 from rfl]
    rw [classEndIdx.eq_def, classEndIdx.eq_def]
    simp
  | case3 first hcond => rfl
  | case4 first x rest2 hcond ih =>
    rw [List.map_cons, List.map_cons, show toLowerB 92 = 92 from rfl]
    rw [classEndIdx.eq_def, classEndIdx.eq_def]
    simp only [if_neg (show ¬((92 : Nat) = 93 ∧ first = false) from by simp),
      if_pos (rfl : (92 : Nat) = 92)]
    rw [ih]
    simp
  | case5 b rest first hcond hb92 ih =>
    have hcondl : ¬(toLowerB b = 93 ∧ first = false) := fun hh =>
      hcond ⟨(toLowerB_eq_special (by omega) (by omega)).mp hh.1, hh.2⟩
    have hb92l : ¬toLowerB b = 92 := fun hh =>
      hb92 ((toLowerB_eq_special (by omega) (by omega)).mp hh)
    rw [List.map_cons, classEndIdx.eq_def, classEndIdx.eq_def]
    simp only [if_neg hcondl, if_neg hcond, if_neg hb92l, if_neg hb92]
    rw [ih]

theorem bodyItems_map (l : List Nat) :
    bodyItems (l.map toLowerB) = (bodyItems l).map lowerItem := by
  unfold bodyItems
  rw [units_map, itemsOfUnits_map]

theorem classAt_map (ps : List Nat) :
    classAt (ps.map toLowerB) =
      (classAt ps).map fun t => (t.1, t.2.1.map lowerItem, t.2.2) := by
  unfold classAt
  have htail : (ps.map toLowerB).tail = ps.tail.map toLowerB := by
    cases ps <;> rfl
  by_cases h : ps.head? = some 33 ∨ ps.head? = some 94
  · rw [if_pos (Or.imp
        (fun h1 => (head?_map_special (by omega) (by omega) ps).mpr h1)
        (fun h1 => (head?_map_special (by omega) (by omega) ps).mpr h1) h)]
    rw [if_pos h, htail, classEndIdx_map]
    cases hE : classEndIdx ps.tail true with
    | none => rfl
    | some n =>
      simp only [Option.map_some']
      rw [← List.map_take, bodyItems_map]
  · rw [if_neg (fun hh => h (Or.imp
        (fun h1 => (head?_map_special (by omega) (by omega) ps).mp h1)
        (fun h1 => (head?_map_special (by omega) (by omega) ps).mp h1) hh))]
    rw [if_neg h, classEndIdx_map]
    cases hE : classEndIdx ps true with
    | none => rfl
    | some n =>
      simp only [Option.map_some']
      rw [← List.map_take, bodyItems_map]

theorem classSkip_map (ps : List Nat) : classSkip (ps.map toLowerB) = classSkip ps := by
  unfold classSkip
  rw [classAt_map]
  cases classAt ps <;> rfl

theorem classNegOf_map (ps : List Nat) : classNegOf (ps.map toLowerB) = classNegOf ps := by
  unfold classNegOf
  rw [classAt_map]
  cases classAt ps <;> rfl

theorem classAt_isSome_map (ps : List Nat) :
    (classAt (ps.map toLowerB)).isSome = (classAt ps).isSome := by
  rw [classAt_map]
  cases classAt ps <;> rfl

theorem classItemsOf_map (ps : List Nat) :
    classItemsOf (ps.map toLowerB) = (classItemsOf ps).map lowerItem := by
  unfold classItemsOf
  rw [classAt_map]
  cases classAt ps <;> rfl

theorem itemsMatch_fold_map (items : List ClassItem) (y : Nat) :
    itemsMatch Case.fold (items.map lowerItem) (toLowerB y) =
      itemsMatch Case.fold items y := by
  unfold itemsMatch
  rw [List.any_map]
  congr 1
  funext it
  cases it with
  | single x =>
    show (fb Case.fold (toLowerB x) == fb Case.fold (toLowerB y)) =
      (fb Case.fold x == fb Case.fold y)
    simp [fb, toLowerB_idem]
  | range lo hi =>
    show decide (fb Case.fold (toLowerB lo) ≤ fb Case.fold (toLowerB y) ∧
          fb Case.fold (toLowerB y) ≤ fb Case.fold (toLowerB hi)) =
        decide (fb Case.fold lo ≤ fb Case.fold y ∧ fb Case.fold y ≤ fb Case.fold hi)
    simp [fb, toLowerB_idem]

theorem decide_toLowerB_ne {k : Nat} (hk : k < 97) (hk2 : k < 65 ∨ 90 < k) (y : Nat) :
    decide (toLowerB y ≠ k) = decide (y ≠ k) := by
  by_cases hy : y = k
  · subst hy
    simp [(toLowerB_eq_special hk hk2).mpr rfl]
  · have hne : toLowerB y ≠ k := fun hh => hy ((toLowerB_eq_special hk hk2).mp hh)
    simp [hy, hne]

theorem map_toLowerB_tail (l : List Nat) :
    (l.map toLowerB).tail = l.tail.map toLowerB := by
  cases l <;> rfl

theorem gmatch_fold_map :
    ∀ (n : Nat) (p c : List Nat), p.length + c.length ≤ n →
      gmatch Case.fold p c = gmatch Case.fold (p.map toLowerB) (c.map toLowerB) := by
  intro n
  induction n with
  | zero =>
    intro p c h
    obtain rfl : p = [] := List.length_eq_zero.mp (by omega)
    obtain rfl : c = [] := List.length_eq_zero.mp (by omega)
    rfl
  | succ m ih =>
    intro p c h
    cases p with
    | nil =>
      rw [List.map_nil, gmatch_nil, gmatch_nil]
      cases c <;> rfl
    | cons b ps =>
      simp only [List.length_cons] at h
      rw [List.map_cons]
      by_cases h63 : b = 63
      · subst h63
        rw [show toLowerB 63 = 63 from rfl]
        cases c with
        | nil => rw [List.map_nil, gmatch_qm_nil, gmatch_qm_nil]
        | cons y cs =>
          simp only [List.length_cons] at h
          rw [List.map_cons, gmatch_qm_cons, gmatch_qm_cons]
          rw [← ih ps cs (by omega)]
          rw [decide_toLowerB_ne (by omega) (by omega)]
      · by_cases h42 : b = 42
        · subst h42
          rw [show toLowerB 42 = 42 from rfl]
          have hdwlem := dropWhile42_map ps
          have hdwlen :=
            (List.dropWhile_sublist (l := ps) (p := fun a => a == 42)).length_le
          have htllen := List.length_tail (List.dropWhile (fun a => a == 42) ps)
          have habs := head?_map_special (k := 47) (by omega) (by omega)
            (ps.dropWhile fun a => a == 42)
          have htail := map_toLowerB_tail (ps.dropWhile fun a => a == 42)
          by_cases hrun : ps.head? = some 42
          · have hrun' : (ps.map toLowerB).head? = some 42 :=
              (head?_map_special (by omega) (by omega) ps).mpr hrun
            cases c with
            | nil =>
              rw [List.map_nil, gmatch_run_nil _ hrun, gmatch_run_nil _ hrun', hdwlem]
              have e1 := ih (ps.dropWhile fun a => a == 42) [] (by simp; omega)
              simp only [List.map_nil] at e1
              rw [← e1]
              by_cases hif : (ps.dropWhile fun a => a == 42).head? = some 47
              · rw [if_pos hif, if_pos (habs.mpr hif), htail]
                have e2 := ih ((ps.dropWhile fun a => a == 42).tail) [] (by simp; omega)
                simp only [List.map_nil] at e2
                rw [← e2]
              · rw [if_neg hif, if_neg (fun hh => hif (habs.mp hh))]
            | cons y cs =>
              simp only [List.length_cons] at h
              rw [List.map_cons, gmatch_run_cons _ _ _ hrun,
                gmatch_run_cons _ _ _ hrun', hdwlem]
              rw [show (42 : Nat) :: ps.map toLowerB = (42 :: ps).map toLowerB from rfl]
              rw [show toLowerB y :: cs.map toLowerB = (y :: cs).map toLowerB from rfl]
              rw [← ih (ps.dropWhile fun a => a == 42) (y :: cs)
                (by simp only [List.length_cons]; omega)]
              rw [← ih (42 :: ps) cs (by simp only [List.length_cons]; omega)]
              by_cases hif : (ps.dropWhile fun a => a == 42).head? = some 47
              · rw [if_pos hif, if_pos (habs.mpr hif), htail]
                rw [← ih ((ps.dropWhile fun a => a == 42).tail) (y :: cs)
                  (by simp only [List.length_cons]; omega)]
              · rw [if_neg hif, if_neg (fun hh => hif (habs.mp hh))]
          · have hrun' : ¬(ps.map toLowerB).head? = some 42 :=
              fun hh => hrun ((head?_map_special (by omega) (by omega) ps).mp hh)
            cases c with
            | nil =>
              rw [List.map_nil, gmatch_star_nil _ hrun, gmatch_star_nil _ hrun']
              have e1 := ih ps [] (by simp; omega)
              simp only [List.map_nil] at e1
              rw [← e1]
            | cons y cs =>
              simp only [List.length_cons] at h
              rw [List.map_cons, gmatch_star_cons _ _ _ hrun,
                gmatch_star_cons _ _ _ hrun']
              rw [show (42 : Nat) :: ps.map toLowerB = (42 :: ps).map toLowerB from rfl]
              rw [show toLowerB y :: cs.map toLowerB = (y :: cs).map toLowerB from rfl]
              rw [← ih ps (y :: cs) (by simp only [List.length_cons]; omega)]
              rw [← ih (42 :: ps) cs (by simp only [List.length_cons]; omega)]
              rw [decide_toLowerB_ne (by omega) (by omega)]
        · by_cases h91 : b = 91
          · subst h91
            rw [show toLowerB 91 = 91 from rfl]
            cases c with
            | nil => rw [List.map_nil, gmatch_class_nil, gmatch_class_nil]
            | cons y cs =>
              simp only [List.length_cons] at h
              rw [List.map_cons, gmatch_class_cons, gmatch_class_cons]
              rw [classAt_isSome_map, classNegOf_map, classItemsOf_map,
                classSkip_map, itemsMatch_fold_map]
              rw [← List.map_drop]
              rw [← ih (ps.drop (classSkip ps)) cs
                (by have := List.length_drop (classSkip ps) ps; omega)]
              rw [decide_toLowerB_ne (by omega) (by omega)]
          · by_cases h92 : b = 92
            · subst h92
              rw [show toLowerB 92 = 92 from rfl]
              cases ps with
              | nil =>
                cases c with
                | nil => rfl
                | cons y cs =>
                  rw [List.map_cons]
                  show ((y == 92) && cs.isEmpty) =
                    ((toLowerB y == 92) && (cs.map toLowerB).isEmpty)
                  rw [beq_toLowerB_special (by omega) (by omega)]
                  congr 1
                  cases cs <;> rfl
              | cons x ps2 =>
                cases c with
                | nil => rfl
                | cons y cs =>
                  simp only [List.length_cons] at h
                  rw [List.map_cons, List.map_cons, gmatch_esc_cons, gmatch_esc_cons]
                  rw [← ih ps2 cs (by omega)]
                  congr 1
                  show (fb Case.fold x == fb Case.fold y) =
                    (fb Case.fold (toLowerB x) == fb Case.fold (toLowerB y))
                  simp [fb, toLowerB_idem]
            · have h63l : toLowerB b ≠ 63 :=
                fun hh => h63 ((toLowerB_eq_special (by omega) (by omega)).mp hh)
              have h42l : toLowerB b ≠ 42 :=
                fun hh => h42 ((toLowerB_eq_special (by omega) (by omega)).mp hh)
              have h91l : toLowerB b ≠ 91 :=
                fun hh => h91 ((toLowerB_eq_special (by omega) (by omega)).mp hh)
              have h92l : toLowerB b ≠ 92 :=
                fun hh => h92 ((toLowerB_eq_special (by omega) (by omega)).mp hh)
              cases c with
              | nil =>
                rw [List.map_nil, gmatch_lit_nil _ _ h63 h42 h91 h92,
                  gmatch_lit_nil _ _ h63l h42l h91l h92l]
              | cons y cs =>
                simp only [List.length_cons] at h
                rw [List.map_cons, gmatch_lit_cons _ _ _ _ h63 h42 h91 h92,
                  gmatch_lit_cons _ _ _ _ h63l h42l h91l h92l]
                rw [← ih ps cs (by omega)]
                congr 1
                show (fb Case.fold b == fb Case.fold y) =
                  (fb Case.fold (toLowerB b) == fb Case.fold (toLowerB y))
                simp [fb, toLowerB_idem]

/-- Claim C1: for every pattern whose mode has `MUST_BE_DIR` set, and for
every candidate path, basename offset and case mode, `matches_path` returns
false whenever `is_dir` is false, regardless of the pattern text and the
candidate content; the directory gate fires before any glob comparison. -/
theorem claim_C1 (p : Pattern) (path : List Nat) (bs : Option Nat) (cse : Case)
    (h : p.mode.mustBeDir = true) :
    matchesPath p path bs false cse = false := by
  simp [matchesPath, h]

theorem claim_C1_witness :
    ({ text := bytes "hello",
       mode := { mustBeDir := true, noSubDir := true, absolute := false,
                 negative := false } } : Pattern).mode.mustBeDir = true ∧
    matchesPath
      { text := bytes "hello",
        mode := { mustBeDir := true, noSubDir := true, absolute := false,
                  negative := false } }
      (bytes "hello") none false Case.sensitive = false :=
  ⟨rfl, claim_C1 _ _ _ _ rfl⟩

/-- Claim C2: for every pattern whose mode has `ABSOLUTE` set, `matches_path`
evaluates the glob against the entire path from byte 0 (the basename offset
is never consulted, so a match can only begin at byte 0 and an anchored
pattern is never retried at a non-zero depth); concretely, the anchored
literal `/foo` does not match `bar/foo`. -/
theorem claim_C2 :
    (∀ (p : Pattern) (path : List Nat) (bs : Option Nat) (dir : Bool) (cse : Case),
        p.mode.absolute = true →
        matchesPath p path bs dir cse =
          if p.mode.mustBeDir && !dir then false else gmatch cse p.text path) ∧
    matchPathM "/foo" "bar/foo" false Case.sensitive = some false := by
  constructor
  · intro p path bs dir cse habs
    simp [matchesPath, habs]
  · decide

theorem claim_C2_witness :
    matchesPath
      { text := bytes "foo",
        mode := { mustBeDir := false, noSubDir := true, absolute := true,
                  negative := false } }
      (bytes "bar/foo") (some 4) false Case.sensitive =
      (if (false && !false : Bool) then false
       else gmatch Case.sensitive (bytes "foo") (bytes "bar/foo")) :=
  claim_C2.1 _ _ _ _ _ rfl

/-- Claim C3: for every pattern with `NO_SUB_DIR` set and `ABSOLUTE` unset,
`matches_path` depends only on the bytes of the path at and after the
basename offset: two candidates with the same matching target (the slice at
`basename_start`, or the whole path when the offset is absent) give the same
result under the same `is_dir` flag and case mode. -/
theorem claim_C3 (p : Pattern) (h1 : p.mode.noSubDir = true)
    (h2 : p.mode.absolute = false) (path1 path2 : List Nat)
    (bs1 bs2 : Option Nat) (dir : Bool) (cse : Case)
    (htgt : targetOf path1 bs1 = targetOf path2 bs2) :
    matchesPath p path1 bs1 dir cse = matchesPath p path2 bs2 dir cse := by
  simp [matchesPath, h1, h2, htgt]

theorem claim_C3_witness :
    targetOf (bytes "bar/foo") (some 4) = targetOf (bytes "foo") none ∧
    matchesPath
      { text := bytes "foo",
        mode := { mustBeDir := false, noSubDir := true, absolute := false,
                  negative := false } }
      (bytes "bar/foo") (some 4) false Case.sensitive =
      matchesPath
        { text := bytes "foo",
          mode := { mustBeDir := false, noSubDir := true, absolute := false,
                    negative := false } }
        (bytes "foo") none false Case.sensitive :=
  ⟨by decide, claim_C3 _ rfl rfl _ _ _ _ _ _ (by decide)⟩

/-- Claim C4: glob matching is anchored at both ends.  An exhausted pattern
matches no leftover candidate; a wildcard-free pattern matches exactly the
candidates that agree with it byte-for-byte over the whole length (so a
successful match consumes the entire candidate with the entire pattern);
and in particular `foo` matches neither `FoOo` (folded) nor `barfoo`, and
`*foo` does not match `barfooo` — there is no implicit substring search. -/
theorem claim_C4 :
    (∀ (cse : Case) (y : Nat) (cs : List Nat), gmatch cse [] (y :: cs) = false) ∧
    (∀ (cse : Case) (p c : List Nat), literalPattern p = true →
        gmatch cse p c = caseEqList cse p c) ∧
    (∀ (cse : Case) (p c : List Nat), caseEqList cse p c = true →
        p.length = c.length) ∧
    matchFileM "foo" "FoOo" Case.fold = some false ∧
    matchFileM "foo" "barfoo" Case.sensitive = some false ∧
    matchFileM "*foo" "barfooo" Case.sensitive = some false := by
  refine ⟨fun cse y cs => rfl, gmatch_literal, caseEqList_length, ?_, ?_, ?_⟩
  · decide
  · decide
  · decide

theorem claim_C4_witness :
    literalPattern (bytes "foo") = true ∧
    gmatch Case.sensitive (bytes "foo") (bytes "barfoo") =
      caseEqList Case.sensitive (bytes "foo") (bytes "barfoo") :=
  ⟨by decide, claim_C4.2.1 Case.sensitive (bytes "foo") (bytes "barfoo") (by decide)⟩

theorem matchesPath_fold_invariant (t1 t2 path1 path2 : List Nat) (mode : Mode)
    (bs : Option Nat) (dir : Bool)
    (ht : t1.map toLowerB = t2.map toLowerB)
    (hp : path1.map toLowerB = path2.map toLowerB) :
    matchesPath ⟨t1, mode⟩ path1 bs dir Case.fold =
      matchesPath ⟨t2, mode⟩ path2 bs dir Case.fold := by
  unfold matchesPath
  by_cases hmb : (mode.mustBeDir && !dir) = true
  · rw [if_pos hmb, if_pos hmb]
  · rw [if_neg hmb, if_neg hmb]
    by_cases hns : (mode.noSubDir && !mode.absolute) = true
    · rw [if_pos hns, if_pos hns]
      have htar : (targetOf path1 bs).map toLowerB = (targetOf path2 bs).map toLowerB := by
        unfold targetOf
        cases bs with
        | none => exact hp
        | some i => rw [List.map_drop, List.map_drop, hp]
      calc gmatch Case.fold t1 (targetOf path1 bs)
          = gmatch Case.fold (t1.map toLowerB) ((targetOf path1 bs).map toLowerB) :=
            gmatch_fold_map _ t1 _ le_rfl
        _ = gmatch Case.fold (t2.map toLowerB) ((targetOf path2 bs).map toLowerB) := by
            rw [ht, htar]
        _ = gmatch Case.fold t2 (targetOf path2 bs) :=
            (gmatch_fold_map _ t2 _ le_rfl).symm
    · rw [if_neg hns, if_neg hns]
      calc gmatch Case.fold t1 path1
          = gmatch Case.fold (t1.map toLowerB) (path1.map toLowerB) :=
            gmatch_fold_map _ t1 _ le_rfl
        _ = gmatch Case.fold (t2.map toLowerB) (path2.map toLowerB) := by rw [ht, hp]
        _ = gmatch Case.fold t2 path2 := (gmatch_fold_map _ t2 _ le_rfl).symm

/-- Claim C5 counterexample: the claim asserts that `Case::Sensitive`
distinguishes any two pattern/path pairs that differ only in ASCII letter
case whenever their byte sequences differ.  It does not: `foo` matches
neither `bar` nor its case-variant `BAR` (same result on byte-different
case-variants), and the wildcard pattern `?` matches both `a` and its
case-variant `A` under `Case::Sensitive`. -/
theorem claim_C5_counterexample :
    (bytes "bar" ≠ bytes "BAR" ∧
      (bytes "bar").map toLowerB = (bytes "BAR").map toLowerB ∧
      matchFileM "foo" "bar" Case.sensitive = matchFileM "foo" "BAR" Case.sensitive) ∧
    (bytes "a" ≠ bytes "A" ∧
      (bytes "a").map toLowerB = (bytes "A").map toLowerB ∧
      matchFileM "?" "a" Case.sensitive = some true ∧
      matchFileM "?" "A" Case.sensitive = some true) := by
  refine ⟨⟨by decide, by decide, by decide⟩, by decide, by decide, by decide, by decide⟩

/-- Claim C5 (amended): for every two pattern-text/path pairs that differ
only in the ASCII case of letters, `matches_path` under `Case::Fold`
returns the same result (equal to the result on the all-lowercase
equivalents), while `Case::Sensitive` compares bytes exactly at every
literal comparison point: a wildcard-free pattern matches under
`Case::Sensitive` exactly the byte-identical candidate, so among
case-variants of a matching pair only the byte-identical one matches.
For example `foo` matches `FoO` under Fold but not under Sensitive. -/
theorem claim_C5 :
    (∀ (t1 t2 path1 path2 : List Nat) (mode : Mode) (bs : Option Nat) (dir : Bool),
        t1.map toLowerB = t2.map toLowerB →
        path1.map toLowerB = path2.map toLowerB →
        matchesPath ⟨t1, mode⟩ path1 bs dir Case.fold =
          matchesPath ⟨t2, mode⟩ path2 bs dir Case.fold) ∧
    (∀ (t c : List Nat), literalPattern t = true →
        (gmatch Case.sensitive t c = true ↔ t = c)) ∧
    matchFileM "foo" "FoO" Case.fold = some true ∧
    matchFileM "foo" "FoO" Case.sensitive = some false := by
  refine ⟨fun t1 t2 path1 path2 mode bs dir ht hp =>
      matchesPath_fold_invariant t1 t2 path1 path2 mode bs dir ht hp,
    fun t c h => ?_, by decide, by decide⟩
  rw [gmatch_literal _ _ _ h]
  exact caseEqList_sensitive t c

theorem claim_C5_witness :
    matchesPath ⟨bytes "foo", ⟨false, true, false, false⟩⟩ (bytes "FOO")
        none false Case.fold =
      matchesPath ⟨bytes "FOO", ⟨false, true, false, false⟩⟩ (bytes "foo")
        none false Case.fold ∧
    (gmatch Case.sensitive (bytes "foo") (bytes "foo") = true ↔
      bytes "foo" = bytes "foo") :=
  ⟨claim_C5.1 _ _ _ _ _ _ _ (by decide) (by decide),
   claim_C5.2.1 _ _ (by decide)⟩

/-- Claim C6: compiling the raw line `hello/` succeeds with `MUST_BE_DIR`
set and text `hello` (the trailing slash is stripped); against the path
`hello` with no basename offset under `Case::Sensitive`, `matches_path`
returns false for a non-directory and true for a directory. -/
theorem claim_C6 :
    compile (bytes "hello/") =
      Except.ok
        { text := bytes "hello",
          mode := { mustBeDir := true, noSubDir := true, absolute := false,
                    negative := false } } ∧
    matchPathM "hello/" "hello" false Case.sensitive = some false ∧
    matchPathM "hello/" "hello" true Case.sensitive = some true := by
  refine ⟨by rfl, by decide, by decide⟩

/-- Claim C7: pattern compilation fails exactly when the line, stripped of
the negation marker, the anchor slash and the trailing directory slash, is
empty (a line consisting solely of `!` strips to empty and is thus an
error); every other single-line input compiles to a pattern.  Compilation
is a total pure function in this model — it touches no file system. -/
theorem claim_C7 (raw : List Nat) :
    (∃ e, compile raw = Except.error e) ↔ strippedLine raw = [] := by
  by_cases h : strippedLine raw = []
  · simp only [h, iff_true]
    exact ⟨ParseError.emptyPattern, by simp [compile, strippedLine] at h ⊢; simp [h]⟩
  · simp only [h, iff_false]
    intro ⟨e, he⟩
    have : ¬(stripDirSlash (stripAnchor (stripNegation raw).2).2).2 = [] := h
    simp [compile, this] at he

end GitGlob

namespace ByteUtil

/-- Split a byte string at every newline byte, keeping all pieces
(like Rust's `slice::split` on `b'\n'`): a trailing newline yields a
final empty piece, the empty input one empty piece. -/
def splitNl : List Nat → List (List Nat)
  | [] => [[]]
  | b :: rest =>
    if b = 10 then [] :: splitNl rest
    else
      match splitNl rest with
      | [] => [[b]]
      | piece :: more => (b :: piece) :: more

/-- An ASCII whitespace byte (space, tab, line feed, vertical tab, form
feed, carriage return). -/
def isWsB (b : Nat) : Bool :=
  b == 32 || b == 9 || b == 10 || b == 11 || b == 12 || b == 13

end ByteUtil

namespace Harness

/-- One record of the captured git transcript
(`GitMatch` in `src/git-glob/tests/matching/mod.rs`). -/
structure GitMatch where
  pattern : List Nat
  value : List Nat
  is_match : Bool
deriving DecidableEq, Repr

/-- `bstr`'s `lines` used by `Baseline::new`: pieces split at `\n`, a
final `\r` stripped from each line, no trailing empty line when the
input ends with a newline terminator. -/
def bstrLines (input : List Nat) : List (List Nat) :=
  let ps := ByteUtil.splitNl input
  let ps := if ps.getLast? = some [] then ps.dropLast else ps
  ps.map fun ln => if ln.getLast? = some 13 then ln.dropLast else ln

/-- `trim_start` of `bstr` restricted to ASCII whitespace. -/
def trimStart (l : List Nat) : List Nat :=
  l.dropWhile ByteUtil.isWsB

/-- One step of the `Baseline` iterator of
`src/git-glob/tests/matching/mod.rs`: `done` models `next` returning
`None`, `panicked` the `expect("value")` failure when the first line has
no space, and `yield` a parsed `GitMatch` together with the remaining
lines.  The first line is split at its first space (`splitn(2, b' ')`)
into the pattern and the leading-whitespace-trimmed value; the record is
a match unless the second line starts with `::` followed by a tab. -/
def baselineNext : List (List Nat) → Option (Option (GitMatch × List (List Nat)))
  | [] => some none
  | l1 :: rest =>
    if l1.any fun b => b == 32 then
      match rest with
      | [] => some none
      | l2 :: rest2 =>
        some (some
          (⟨l1.takeWhile fun b => !(b == 32),
            trimStart ((l1.dropWhile fun b => !(b == 32)).tail),
            !List.isPrefixOf [58, 58, 9] l2⟩, rest2))
    else none

/-- All records the `Baseline` iterator yields, two input lines per
record; iteration stops at the end of input, at an unpaired trailing
line, or at a panic. -/
def baselineRecords : List (List Nat) → List GitMatch
  | [] => []
  | [_] => []
  | l1 :: l2 :: rest =>
    match baselineNext (l1 :: l2 :: rest) with
    | some (some (m, _)) => m :: baselineRecords rest
    | _ => []

/-- Every first line of a two-line group contains a space. -/
def pairsWellFormed : List (List Nat) → Bool
  | [] => true
  | [l1] => l1.any fun b => b == 32
  | l1 :: _ :: rest => (l1.any fun b => b == 32) && pairsWellFormed rest

/-- Claim C8: the `Baseline` iterator parses each record from exactly two
consecutive lines: the first line is split at its first space into a
pattern and a value whose leading whitespace is trimmed, and the record's
`is_match` field is false exactly when the second line starts with the
bytes `::` followed by a tab — any other second line means a match. -/
theorem claim_C8 (l1 l2 : List Nat) (rest : List (List Nat))
    (hspace : (l1.any fun b => b == 32) = true) :
    baselineNext (l1 :: l2 :: rest) =
      some (some
        (⟨l1.takeWhile fun b => !(b == 32),
          trimStart ((l1.dropWhile fun b => !(b == 32)).tail),
          !List.isPrefixOf [58, 58, 9] l2⟩, rest)) ∧
    (∀ (m : GitMatch) (rest2 : List (List Nat)),
        baselineNext (l1 :: l2 :: rest) = some (some (m, rest2)) →
        (m.is_match = false ↔ List.isPrefixOf [58, 58, 9] l2 = true)) := by
  constructor
  · simp [baselineNext, hspace]
  · intro m rest2 h
    simp only [baselineNext, if_pos hspace, Option.some.injEq, Prod.mk.injEq] at h
    obtain ⟨hm, _⟩ := h
    rw [← hm]
    simp

theorem claim_C8_witness :
    ((GitGlob.bytes "p* x").any fun b => b == 32) = true ∧
    (baselineNext [GitGlob.bytes "p* x", [58, 58, 9, 120]] =
      some (some
        (⟨(GitGlob.bytes "p* x").takeWhile fun b => !(b == 32),
          trimStart (((GitGlob.bytes "p* x").dropWhile fun b => !(b == 32)).tail),
          !List.isPrefixOf [58, 58, 9] [58, 58, 9, 120]⟩, [])) ∧
      ∀ (m : GitMatch) (rest2 : List (List Nat)),
        baselineNext [GitGlob.bytes "p* x", [58, 58, 9, 120]] = some (some (m, rest2)) →
        (m.is_match = false ↔ List.isPrefixOf [58, 58, 9] [58, 58, 9, 120] = true)) :=
  ⟨by decide, claim_C8 (GitGlob.bytes "p* x") [58, 58, 9, 120] [] (by decide)⟩

/-- Claim C10: the `Baseline` iterator silently drops an unpaired trailing
pattern line — when the final pattern line (containing a space, so the
value `expect` succeeds) has no following result line, `next` returns
`None` rather than a partial record or an error; consequently, on a
well-formed input of `n` lines in which every first line of a pair
contains a space, the iterator yields exactly `n / 2` records. -/
theorem claim_C10 :
    (∀ l1 : List Nat, (l1.any fun b => b == 32) = true →
        baselineNext [l1] = some none) ∧
    (∀ ls : List (List Nat), pairsWellFormed ls = true →
        (baselineRecords ls).length = ls.length / 2) := by
  constructor
  · intro l1 hspace
    simp [baselineNext, hspace]
  · intro ls hwf
    induction ls using pairsWellFormed.induct with
    | case1 => rfl
    | case2 l1 => simp [baselineRecords]
    | case3 l1 l2 rest ih =>
      simp only [pairsWellFormed, Bool.and_eq_true] at hwf
      obtain ⟨hspace, hwf2⟩ := hwf
      simp only [baselineRecords, baselineNext, if_pos hspace]
      rw [List.length_cons, ih hwf2]
      simp only [List.length_cons]
      omega

theorem claim_C10_witness :
    ((GitGlob.bytes "p x").any fun b => b == 32) = true ∧
    baselineNext [GitGlob.bytes "p x"] = some none ∧
    pairsWellFormed [GitGlob.bytes "p x", [], GitGlob.bytes "q y"] = true ∧
    (baselineRecords [GitGlob.bytes "p x", [], GitGlob.bytes "q y"]).length =
      ([GitGlob.bytes "p x", [], GitGlob.bytes "q y"] : List (List Nat)).length / 2 :=
  ⟨by decide, claim_C10.1 (GitGlob.bytes "p x") (by decide), by decide,
   claim_C10.2 [GitGlob.bytes "p x", [], GitGlob.bytes "q y"] (by decide)⟩

end Harness

namespace GitObject

/-- Sign of a timezone offset. -/
inductive Sign where
  | plus
  | minus
deriving DecidableEq, Repr

/-- A timestamp with timezone offset (`git_object::Time`). -/
structure Time where
  time : Nat
  offset : Int
  sign : Sign
deriving DecidableEq, Repr

/-- An author/tagger signature (`git_object::parsed::Signature`). -/
structure Signature where
  name : List Nat
  email : List Nat
  time : Time
deriving DecidableEq, Repr

/-- The kind of a git object. -/
inductive Kind where
  | tree
  | blob
  | commit
  | tag
deriving DecidableEq, Repr

/-- Parse errors of the tag parser (`git_object::parsed::Error`). -/
inductive TagError where
  | parseError (msg : String) (data : List Nat)
  | parseIntegerError (msg : String) (data : List Nat)
deriving DecidableEq, Repr

/-- Is this byte an ASCII hexadecimal digit (either case, as accepted by
the `hex` crate's `FromHex`)? -/
def hexVal (b : Nat) : Option Nat :=
  if 48 ≤ b ∧ b ≤ 57 then some (b - 48)
  else if 97 ≤ b ∧ b ≤ 102 then some (b - 87)
  else if 65 ≤ b ∧ b ≤ 70 then some (b - 55)
  else none

/-- `<[u8; N]>::from_hex`: decode pairs of hex digits into bytes; any
non-hex digit or odd length fails. -/
def decodeHex : List Nat → Option (List Nat)
  | [] => some []
  | [_] => none
  | h :: l :: rest =>
    match hexVal h, hexVal l, decodeHex rest with
    | some hv, some lv, some out => some ((hv * 16 + lv) :: out)
    | _, _, _ => none

/-- Modelled from the spec: `split2_at_space` of the parse utilities
(`parsed::util`), which is absent from the sampled sources; its call
sites split a field line at the first space into two tokens and fail
unless the validator accepts them. -/
def split2_at_space (d : List Nat) (validate : List Nat → List Nat → Bool) :
    Except TagError (List Nat × List Nat) :=
  if d.any fun b => b == 32 then
    if validate (d.takeWhile fun b => !(b == 32)) ((d.dropWhile fun b => !(b == 32)).tail) then
      Except.ok (d.takeWhile fun b => !(b == 32), (d.dropWhile fun b => !(b == 32)).tail)
    else Except.error (TagError.parseError "Invalid field" d)
  else Except.error (TagError.parseError "Expected two tokens" d)

/-- Modelled from the spec: `Kind::from_bytes`, absent from the sampled
sources; maps the four object-kind names to `Kind` and rejects the rest. -/
def Kind.from_bytes (d : List Nat) : Except TagError Kind :=
  if d = GitGlob.bytes "tree" then Except.ok Kind.tree
  else if d = GitGlob.bytes "blob" then Except.ok Kind.blob
  else if d = GitGlob.bytes "commit" then Except.ok Kind.commit
  else if d = GitGlob.bytes "tag" then Except.ok Kind.tag
  else Except.error (TagError.parseError "Invalid object kind" d)

/-- Modelled from the spec: `parse_timezone_offset`, absent from the
sampled sources; a sign byte `+` or `-` followed by a four-digit `hhmm`
offset, converted to seconds with the sign applied. -/
def parse_timezone_offset (d : List Nat) : Except TagError (Int × Sign) :=
  match d with
  | [s, h1, h2, m1, m2] =>
    if (s = 43 ∨ s = 45) ∧ ([h1, h2, m1, m2].all fun b => 48 ≤ b && b ≤ 57) then
      let hh := (h1 - 48) * 10 + (h2 - 48)
      let mm := (m1 - 48) * 10 + (m2 - 48)
      let secs : Int := (hh * 3600 + mm * 60 : Nat)
      if s = 45 then Except.ok (-secs, Sign.minus) else Except.ok (secs, Sign.plus)
    else Except.error (TagError.parseError "Timezone offset is invalid" d)
  | _ => Except.error (TagError.parseError "Timezone offset is invalid" d)

/-- The `btoi` crate's decimal parse into `u32`: all decimal digits, a
nonempty input and no overflow. -/
def btoi_u32 (d : List Nat) : Except TagError Nat :=
  if d ≠ [] ∧ (d.all fun b => 48 ≤ b && b ≤ 57) then
    let v := d.foldl (fun a b => a * 10 + (b - 48)) 0
    if v < 2 ^ 32 then Except.ok v
    else Except.error (TagError.parseIntegerError "Could parse to seconds" d)
  else Except.error (TagError.parseIntegerError "Could parse to seconds" d)

/-- `parse_signature` of `src/git-object/src/parsed/tag.rs`: locate the
email between `<` and `>`, require time bytes after it, split them at
the space into seconds and timezone, and assemble the signature. -/
def parse_signature (d : List Nat) : Except TagError Signature :=
  match d.findIdx? fun b => b == 60 with
  | none =>
    Except.error (TagError.parseError "Could not find beginning of email marked by '<'" d)
  | some emailBegin =>
    if emailBegin = 0 then
      Except.error (TagError.parseError "Email found in place of author name" d)
    else
      match (d.drop emailBegin).findIdx? fun b => b == 62 with
      | none =>
        Except.error (TagError.parseError "Could not find end of email marked by '>'" d)
      | some p =>
        if d.length - 1 - 1 ≤ p then
          Except.error (TagError.parseError "There is no time after email" d)
        else
          let emailEnd := emailBegin + p
          match split2_at_space (d.drop (emailEnd + 2)) (fun _ _ => true) with
          | Except.error e => Except.error e
          | Except.ok (tis, tz) =>
            match parse_timezone_offset tz with
            | Except.error e => Except.error e
            | Except.ok (offset, sign) =>
              match btoi_u32 tis with
              | Except.error e => Except.error e
              | Except.ok t =>
                Except.ok
                  ⟨d.take (emailBegin - 1),
                   (d.drop (emailBegin + 1)).take (emailEnd - (emailBegin + 1)),
                   ⟨t, offset, sign⟩⟩

def pgpSigBegin : List Nat := GitGlob.bytes "-----BEGIN PGP SIGNATURE-----"

def pgpSigEnd : List Nat := GitGlob.bytes "-----END PGP SIGNATURE-----"

/-- The lines after the first one starting with the given marker, if any
(the iterator `find` of `parse_message`). -/
def findLineRest : List (List Nat) → List Nat → Option (List (List Nat))
  | [], _ => none
  | l :: ls, marker =>
    if List.isPrefixOf marker l then some ls else findLineRest ls marker

/-- `parse_message` of `src/git-object/src/parsed/tag.rs`: after the four
header lines, either nothing follows (no message), or an empty separator
line precedes the message; a PGP signature begin marker must be matched
by an end marker.  The message and signature slice bounds mirror the
source's placeholder arithmetic (`msg_begin = 0`, `msg_end = d.len()`). -/
def parse_message (d : List Nat) (lines : List (List Nat)) :
    Except TagError (Option (List Nat) × Option (List Nat)) :=
  match lines with
  | [] => Except.ok (none, none)
  | l :: rest =>
    if l = [] then
      if d.length ≤ 0 then
        Except.error (TagError.parseError "Message separator was not followed by message" d)
      else
        match findLineRest rest pgpSigBegin with
        | none => Except.ok (some d, none)
        | some afterBegin =>
          match findLineRest afterBegin pgpSigEnd with
          | none =>
            Except.error (TagError.parseError "Didn't find end of signature marker" d)
          | some _ => Except.ok (some d, some [])
    else Except.error (TagError.parseError "Expected empty newline to separate message" l)

/-- A parsed annotated tag (`git_object::parsed::Tag`). -/
structure Tag where
  target : List Nat
  name : List Nat
  target_kind : Kind
  message : Option (List Nat)
  signature : Signature
  pgp_signature : Option (List Nat)
deriving DecidableEq, Repr

/-- `Tag::from_bytes` of `src/git-object/src/parsed/tag.rs`: split the
input at newlines, parse the `object`, `type`, `tag` and `tagger` header
lines (the `object` value must be 40 hex bytes decoding to 20 bytes),
then the message. -/
def Tag.from_bytes (d : List Nat) : Except TagError Tag :=
  match ByteUtil.splitNl d with
  | l1 :: l2 :: l3 :: l4 :: rest =>
    match split2_at_space l1 (fun f v =>
        f == GitGlob.bytes "object" && v.length == 40 && (decodeHex v).isSome) with
    | Except.error e => Except.error e
    | Except.ok (_, target) =>
      match split2_at_space l2 (fun f _ => f == GitGlob.bytes "type") with
      | Except.error e => Except.error e
      | Except.ok (_, kindBytes) =>
        match Kind.from_bytes kindBytes with
        | Except.error e => Except.error e
        | Except.ok kind =>
          match split2_at_space l3 (fun f _ => f == GitGlob.bytes "tag") with
          | Except.error e => Except.error e
          | Except.ok (_, name) =>
            match split2_at_space l4 (fun f _ => f == GitGlob.bytes "tagger") with
            | Except.error e => Except.error e
            | Except.ok (_, taggerRest) =>
              match parse_signature taggerRest with
              | Except.error e => Except.error e
              | Except.ok sig =>
                match parse_message d rest with
                | Except.error e => Except.error e
                | Except.ok (msg, pgp) => Except.ok ⟨target, name, kind, msg, sig, pgp⟩
  | _ =>
    Except.error (TagError.parseError "Expected four lines: target, type, tag and tagger" d)

/-- The `Tag::target` accessor: it decodes the stored 40 hex bytes with
`from_hex(..).expect("prior validation")`; `none` models the panic. -/
def Tag.targetId (t : Tag) : Option (List Nat) :=
  decodeHex t.target

theorem split2_at_space_validate {d : List Nat}
    {validate : List Nat → List Nat → Bool} {t1 t2 : List Nat}
    (h : split2_at_space d validate = Except.ok (t1, t2)) :
    validate t1 t2 = true := by
  unfold split2_at_space at h
  split at h
  · split at h
    · rename_i hv
      cases h
      exact hv
    · exact Except.noConfusion h
  · exact Except.noConfusion h

theorem decodeHex_length : ∀ v out, decodeHex v = some out → v.length = 2 * out.length
  | [], _, h => by cases h; rfl
  | [_], _, h => Option.noConfusion h
  | b1 :: b2 :: rest, out, h => by
    unfold decodeHex at h
    cases hh : hexVal b1 with
    | none => simp [hh] at h
    | some hv =>
      cases hl : hexVal b2 with
      | none => simp [hh, hl] at h
      | some lv =>
        cases hr : decodeHex rest with
        | none => simp [hh, hl, hr] at h
        | some out2 =>
          simp only [hh, hl, hr, Option.some.injEq] at h
          subst h
          have hlen := decodeHex_length rest out2 hr
          simp only [List.length_cons]
          omega

/-- Claim C9: every `Tag` produced by `Tag::from_bytes` carries a `target`
field of exactly 40 hexadecimal bytes that decode to a 20-byte array —
the `object` header line is validated during parsing — so the `Tag::target`
accessor, which unwraps that decoding with `expect`, can never panic on
such a tag (modelled: `targetId` is always `some`). -/
theorem claim_C9 (d : List Nat) (t : Tag) (h : Tag.from_bytes d = Except.ok t) :
    t.target.length = 40 ∧
    ∃ out, Tag.targetId t = some out ∧ out.length = 20 := by
  unfold Tag.from_bytes at h
  split at h
  · split at h
    · exact Except.noConfusion h
    · rename_i fst tgt heq1
      have hval := split2_at_space_validate heq1
      split at h
      · exact Except.noConfusion h
      · split at h
        · exact Except.noConfusion h
        · split at h
          · exact Except.noConfusion h
          · split at h
            · exact Except.noConfusion h
            · split at h
              · exact Except.noConfusion h
              · split at h
                · exact Except.noConfusion h
                · injection h with h2
                  subst h2
                  simp only [Bool.and_eq_true, beq_iff_eq] at hval
                  obtain ⟨⟨hobj, hlen⟩, hsome⟩ := hval
                  obtain ⟨out, hout⟩ := Option.isSome_iff_exists.mp hsome
                  refine ⟨hlen, out, hout, ?_⟩
                  have := decodeHex_length tgt out hout
                  omega
  · exact Except.noConfusion h

theorem claim_C9_witness :
    Tag.from_bytes (GitGlob.bytes "object 0000000000000000000000000000000000000000\ntype commit\ntag v1\ntagger a <b> 12 +0000") =
      Except.ok
        { target := List.replicate 40 48,
          name := [118, 49],
          target_kind := Kind.commit,
          message := none,
          signature := { name := [97], email := [98],
                         time := { time := 12, offset := 0, sign := Sign.plus } },
          pgp_signature := none } ∧
    ((List.replicate 40 48 : List Nat).length = 40 ∧
      ∃ out, Tag.targetId
          { target := List.replicate 40 48,
            name := [118, 49],
            target_kind := Kind.commit,
            message := none,
            signature := { name := [97], email := [98],
                           time := { time := 12, offset := 0, sign := Sign.plus } },
            pgp_signature := none } = some out ∧ out.length = 20) :=
  ⟨by rfl,
   claim_C9
     (GitGlob.bytes "object 0000000000000000000000000000000000000000\ntype commit\ntag v1\ntagger a <b> 12 +0000")
     { target := List.replicate 40 48,
       name := [118, 49],
       target_kind := Kind.commit,
       message := none,
       signature := { name := [97], email := [98],
                      time := { time := 12, offset := 0, sign := Sign.plus } },
       pgp_signature := none }
     (by rfl)⟩

end GitObject
